import Mathlib

/-!
Verification of the analytic SDF core of the neural-SDF notebook
(`velocity-learning.ipynb`).

The embedded functions are:
* `get_sphere_sdf` — cell `get_sphere_sdf`: `torch.sum(x ** 2, dim=-1) - r ** 2`.
* `make_annular` — cell `make_annular`: `torch.abs(sdf_func(pos)) - r`.
* `get_star_sdf` — cell `get_star_sdf`: the folded regular-star distance formula.
* `get_normal_field` — cell `get_normal_field`: autograd gradient of the field,
  normalized by the Euclidean norm of the gradient.

The elementwise tensor arithmetic is modelled pointwise: a batch of points is
modelled by a single point (`Fin k → α`), since every operation involved acts
independently on each batch element.  Purely arithmetic functions are
polymorphic over a linear ordered field, so they can be evaluated exactly over
`ℚ`; the trigonometric star SDF and the gradient-based normal extractor are
modelled over `ℝ`.
-/

namespace SDF

/-- Embedding of `get_sphere_sdf(r)` from the notebook: the returned closure
computes `torch.sum(x ** 2, dim=-1) - r ** 2`, i.e. the squared norm of the
point minus the squared radius. -/
def get_sphere_sdf {α : Type} [LinearOrderedField α] {k : ℕ} (r : α) :
    (Fin k → α) → α :=
  fun x => (∑ i, x i ^ 2) - r ^ 2

/-- Embedding of `make_annular(sdf_func, r)` from the notebook: the returned
closure `onion_sdf` computes `torch.abs(sdf_func(pos)) - r`. -/
def make_annular {α : Type} [LinearOrderedField α] {P : Type}
    (sdf_func : P → α) (r : α) : P → α :=
  fun pos => |sdf_func pos| - r

/-- Embedding of `torch.atan2(y, x)`: the four-quadrant arctangent, with the
torch conventions `atan2(0, x) = 0` for `x > 0` and `atan2(0, 0) = 0`. -/
noncomputable def atan2 (y x : ℝ) : ℝ :=
  if 0 < x then Real.arctan (y / x)
  else if x < 0 then
    (if 0 ≤ y then Real.arctan (y / x) + Real.pi
     else Real.arctan (y / x) - Real.pi)
  else if 0 < y then Real.pi / 2
  else if y < 0 then -(Real.pi / 2)
  else 0

/-- Embedding of the tensor `%` operator (`torch.remainder`): Python-style
floored modulo, `a - b * floor(a / b)`. -/
noncomputable def fmod (a b : ℝ) : ℝ := a - b * ⌊a / b⌋

/-- Embedding of `torch.clamp(v, lo, hi)`: `min(max(v, lo), hi)`. -/
noncomputable def clamp (v lo hi : ℝ) : ℝ := min (max v lo) hi

/-- Embedding of `get_star_sdf(r, n, m)` from the notebook.  The returned
closure folds the query point into the canonical star sector via the angle
`bn = atan2(x1, x0) % (2 * an) - an`, reconstructs the folded point from the
full Euclidean norm of the input, offsets by `r * acs`, projects onto the
edge direction `ecs` with the clamped projection coefficient, and returns the
norm of the result signed by the sign of its first component.  The source
indexes only components `0` and `1` but takes `torch.norm` over the whole
last dimension, so the embedding is stated for any input dimension `k + 2`,
exactly as the tensor code broadcasts. -/
noncomputable def get_star_sdf {k : ℕ} (r n m : ℝ) : (Fin (k + 2) → ℝ) → ℝ :=
  fun x =>
    let an := Real.pi / n
    let en := Real.pi / m
    let acs0 := Real.cos an
    let acs1 := Real.sin an
    let ecs0 := Real.cos en
    let ecs1 := Real.sin en
    let bn := fmod (atan2 (x 1) (x 0)) (2 * an) - an
    let rad := Real.sqrt (∑ i, x i ^ 2)
    let y0 := rad * Real.cos bn - r * acs0
    let y1 := rad * |Real.sin bn| - r * acs1
    let dp := y0 * ecs0 + y1 * ecs1
    let c := clamp (-dp) 0 (r * acs1 / ecs1)
    let z0 := y0 + ecs0 * c
    let z1 := y1 + ecs1 * c
    Real.sqrt (z0 ^ 2 + z1 ^ 2) * Real.sign z0

/-- Ideal star parameters used in the spec's worked test case. -/
lemma sin_pi_div_five_pos : 0 < Real.sin (Real.pi / 5) :=
  Real.sin_pos_of_pos_of_lt_pi (by positivity) (by linarith [Real.pi_pos])

lemma cos_pi_div_five_pos : 0 < Real.cos (Real.pi / 5) :=
  Real.cos_pos_of_mem_Ioo ⟨by linarith [Real.pi_pos], by linarith [Real.pi_pos]⟩

/-- On the nonnegative horizontal axis (second coordinate `0`), the star SDF
with `n = m = 5`, `r = 1` reduces to `R - 1 + clamp (1 - R) 0 1` where `R` is
the Euclidean norm of the full input vector. -/
lemma star_sdf_axis_eval {k : ℕ} (x : Fin (k + 2) → ℝ)
    (hx1 : x 1 = 0) (hx0 : 0 ≤ x 0) :
    get_star_sdf 1 5 5 x =
      Real.sqrt (∑ i, x i ^ 2) - 1 +
        clamp (1 - Real.sqrt (∑ i, x i ^ 2)) 0 1 := by
  have hsin := sin_pi_div_five_pos
  have hcos := cos_pi_div_five_pos
  have hatan : atan2 (x 1) (x 0) = 0 := by
    rcases eq_or_lt_of_le hx0 with h | h
    · simp [atan2, hx1, ← h]
    · simp [atan2, hx1, h]
  simp only [get_star_sdf, hatan]
  have hfmod : fmod 0 (2 * (Real.pi / 5)) = 0 := by
    simp [fmod]
  rw [hfmod]
  simp only [zero_sub, Real.cos_neg, Real.sin_neg, abs_neg, abs_of_pos hsin,
    one_mul, div_self hsin.ne']
  set R := Real.sqrt (∑ i, x i ^ 2) with hRdef
  set c5 := Real.cos (Real.pi / 5) with hc5
  set s5 := Real.sin (Real.pi / 5) with hs5
  have hid : s5 ^ 2 + c5 ^ 2 = 1 := Real.sin_sq_add_cos_sq (Real.pi / 5)
  have hdp : -((R * c5 - c5) * c5 + (R * s5 - s5) * s5) = 1 - R := by
    linear_combination (1 - R) * hid
  rw [hdp]
  set C := clamp (1 - R) 0 1 with hCdef
  have hz0 : R * c5 - c5 + c5 * C = c5 * (R - 1 + C) := by ring
  have hz1 : R * s5 - s5 + s5 * C = s5 * (R - 1 + C) := by ring
  rw [hz0, hz1]
  have hsq : (c5 * (R - 1 + C)) ^ 2 + (s5 * (R - 1 + C)) ^ 2 =
      (R - 1 + C) ^ 2 := by
    linear_combination (R - 1 + C) ^ 2 * hid
  rw [hsq, Real.sqrt_sq_eq_abs]
  rcases lt_trichotomy (R - 1 + C) 0 with hw | hw | hw
  · rw [abs_of_neg hw, Real.sign_of_neg (mul_neg_of_pos_of_neg hcos hw)]
    ring
  · rw [hw]
    simp
  · rw [abs_of_pos hw, Real.sign_of_pos (mul_pos hcos hw)]
    ring

/-- Embedding of the `torch.autograd.grad(outputs=f_value, inputs=x,
grad_outputs=torch.ones_like(f_value))` call inside `normal_field`: for a
scalar field evaluated at one point it is the vector of partial derivatives
of `f` at `x`. -/
noncomputable def torch_grad {k : ℕ} (f : (Fin k → ℝ) → ℝ) (x : Fin k → ℝ) :
    Fin k → ℝ :=
  fun i => fderiv ℝ f x (Pi.single i 1)

/-- Embedding of the closure returned by `get_normal_field(f)`: the autograd
gradient divided by `torch.sqrt(torch.sum(grad ** 2))`, its Euclidean norm. -/
noncomputable def get_normal_field {k : ℕ} (f : (Fin k → ℝ) → ℝ)
    (x : Fin k → ℝ) : Fin k → ℝ :=
  fun i => torch_grad f x i / Real.sqrt (∑ j, torch_grad f x j ^ 2)

/-- A caller-visible torch tensor for the purposes of the normal-field call:
its numeric data together with its autograd gradient-tracking flag. -/
structure Tensor (k : ℕ) where
  data : Fin k → ℝ
  requires_grad : Bool

/-- Embedding of one call of the closure returned by `get_normal_field(f)`
with the caller's tensor state made explicit.  The first statement of the
closure is `x = x.requires_grad_(True)`, an in-place update of the
gradient-tracking flag of the very tensor the caller passed in; the model
returns the caller's tensor as it stands after the call, together with the
computed normal. -/
noncomputable def normal_field_call {k : ℕ} (f : (Fin k → ℝ) → ℝ)
    (t : Tensor k) : Tensor k × (Fin k → ℝ) :=
  let xt : Tensor k := ⟨t.data, true⟩
  (xt, get_normal_field f xt.data)

/-- The autograd gradient of the sphere SDF is `2 * x`, the exact gradient of
`x ↦ ‖x‖ ^ 2 - r ^ 2`. -/
lemma torch_grad_sphere {k : ℕ} (r : ℝ) (x : Fin k → ℝ) :
    torch_grad (get_sphere_sdf r) x = fun i => 2 * x i := by
  have hj : ∀ j : Fin k, HasFDerivAt (fun y : Fin k → ℝ => y j ^ 2)
      (x j • (ContinuousLinearMap.proj j : (Fin k → ℝ) →L[ℝ] ℝ) +
        x j • (ContinuousLinearMap.proj j : (Fin k → ℝ) →L[ℝ] ℝ)) x := by
    intro j
    have hp : HasFDerivAt (fun y : Fin k → ℝ => y j)
        (ContinuousLinearMap.proj j : (Fin k → ℝ) →L[ℝ] ℝ) x :=
      (ContinuousLinearMap.proj j : (Fin k → ℝ) →L[ℝ] ℝ).hasFDerivAt
    have hm := hp.mul hp
    simpa [pow_two] using hm
  have hsum : HasFDerivAt (fun y : Fin k → ℝ => ∑ j, y j ^ 2)
      (∑ j, (x j • (ContinuousLinearMap.proj j : (Fin k → ℝ) →L[ℝ] ℝ) +
        x j • (ContinuousLinearMap.proj j : (Fin k → ℝ) →L[ℝ] ℝ))) x :=
    HasFDerivAt.sum fun j _ => hj j
  have hf : HasFDerivAt (get_sphere_sdf (α := ℝ) (k := k) r)
      (∑ j, (x j • (ContinuousLinearMap.proj j : (Fin k → ℝ) →L[ℝ] ℝ) +
        x j • (ContinuousLinearMap.proj j : (Fin k → ℝ) →L[ℝ] ℝ))) x := by
    simpa [get_sphere_sdf] using hsum.sub_const (r ^ 2)
  funext i
  simp only [torch_grad, hf.fderiv]
  simp [ContinuousLinearMap.sum_apply, ContinuousLinearMap.add_apply,
    ContinuousLinearMap.smul_apply, ContinuousLinearMap.proj_apply,
    Pi.single_apply, mul_ite, mul_zero, Finset.sum_ite_eq]
  rw [Finset.sum_add_distrib, Finset.sum_ite_eq' Finset.univ i x]
  simp [two_mul]

end SDF

namespace SDF

/-- C1: for a radius `r ≥ 0` and a point whose squared norm is `d ^ 2` with
`d ≥ 0` (so the point is at distance `d` from the origin), the sphere SDF
evaluates to `d ^ 2 - r ^ 2`; it is `0` at distance exactly `r`, strictly
negative at distance `d < r`, and strictly positive at distance `d > r`. -/
theorem sphere_sdf_squared_distance {k : ℕ} (r d : ℚ) (x : Fin k → ℚ)
    (hr : 0 ≤ r) (hd : 0 ≤ d) (hx : (∑ i, x i ^ 2) = d ^ 2) :
    get_sphere_sdf r x = d ^ 2 - r ^ 2 ∧
    (d = r → get_sphere_sdf r x = 0) ∧
    (d < r → get_sphere_sdf r x < 0) ∧
    (r < d → 0 < get_sphere_sdf r x) := by
  have hval : get_sphere_sdf r x = d ^ 2 - r ^ 2 := by
    simp [get_sphere_sdf, hx]
  refine ⟨hval, ?_, ?_, ?_⟩
  · rintro rfl
    simp [hval]
  · intro hlt
    have : d ^ 2 < r ^ 2 := by nlinarith
    rw [hval]
    linarith
  · intro hlt
    have : r ^ 2 < d ^ 2 := by nlinarith
    rw [hval]
    linarith

/-- Witness for C1 at `r = 5`, `d = 5`, `x = (3, 4)`. -/
theorem sphere_sdf_squared_distance_witness :
    (0 : ℚ) ≤ 5 ∧ (0 : ℚ) ≤ 5 ∧ (∑ i, (![3, 4] : Fin 2 → ℚ) i ^ 2) = 5 ^ 2 ∧
    (get_sphere_sdf 5 (![3, 4] : Fin 2 → ℚ) = 5 ^ 2 - 5 ^ 2 ∧
    ((5 : ℚ) = 5 → get_sphere_sdf 5 (![3, 4] : Fin 2 → ℚ) = 0) ∧
    ((5 : ℚ) < 5 → get_sphere_sdf 5 (![3, 4] : Fin 2 → ℚ) < 0) ∧
    ((5 : ℚ) < 5 → 0 < get_sphere_sdf 5 (![3, 4] : Fin 2 → ℚ))) := by
  have hx : (∑ i, (![3, 4] : Fin 2 → ℚ) i ^ 2) = 5 ^ 2 := by
    simp [Fin.sum_univ_two]
    norm_num
  exact ⟨by norm_num, by norm_num, hx,
    sphere_sdf_squared_distance 5 5 ![3, 4] (by norm_num) (by norm_num) hx⟩

/-- C2: for every SDF function, thickness and input point, the annular
combinator evaluates to the absolute value of the wrapped SDF minus the
thickness. -/
theorem make_annular_eq_abs_sub {P : Type} (sdf_func : P → ℚ) (r : ℚ) (x : P) :
    make_annular sdf_func r x = |sdf_func x| - r := rfl

/-- C10: the annular combinator never evaluates below `-r`: the absolute value
step bounds its output from below by `-r` at every point. -/
theorem make_annular_lower_bound {P : Type} (sdf_func : P → ℚ) (r : ℚ) (x : P) :
    -r ≤ make_annular sdf_func r x := by
  have h := abs_nonneg (sdf_func x)
  simp only [make_annular]
  linarith

/-- C3 counterexample: with `r = 1` and `t = 1/2` the point `(1/2, 0)` is at
distance exactly `r - t = 1/2` from the origin, yet the annular sphere SDF
evaluates there to `1/4`, not `0` — the sphere SDF is in squared-distance
form, so the zero set of the annulus is not at linear distance `r ± t`. -/
theorem annular_sphere_not_zero_at_r_sub_t :
    (∑ i, (![1 / 2, 0] : Fin 2 → ℚ) i ^ 2) = (1 - 1 / 2) ^ 2 ∧
    make_annular (get_sphere_sdf 1) (1 / 2) (![1 / 2, 0] : Fin 2 → ℚ) = 1 / 4 ∧
    make_annular (get_sphere_sdf 1) (1 / 2) (![1 / 2, 0] : Fin 2 → ℚ) ≠ 0 := by
  refine ⟨?_, ?_, ?_⟩ <;>
    · simp [make_annular, get_sphere_sdf, Fin.sum_univ_two]
      norm_num [abs_of_nonpos]

/-- C3 amended: for `0 < t < r`, the annular sphere SDF vanishes exactly on the
points whose SQUARED distance from the origin is `r ^ 2 - t` or `r ^ 2 + t`,
and is strictly negative at every point whose squared distance lies strictly
between those two values. -/
theorem annular_sphere_zero_level_set {k : ℕ} (r t : ℚ) (x : Fin k → ℚ)
    (hr : 0 < r) (ht : 0 < t) (htr : t < r) :
    ((∑ i, x i ^ 2) = r ^ 2 - t →
      make_annular (get_sphere_sdf r) t x = 0) ∧
    ((∑ i, x i ^ 2) = r ^ 2 + t →
      make_annular (get_sphere_sdf r) t x = 0) ∧
    (r ^ 2 - t < (∑ i, x i ^ 2) → (∑ i, x i ^ 2) < r ^ 2 + t →
      make_annular (get_sphere_sdf r) t x < 0) := by
  refine ⟨?_, ?_, ?_⟩
  · intro hx
    simp only [make_annular, get_sphere_sdf, hx]
    rw [abs_of_nonpos (by linarith)]
    ring
  · intro hx
    simp only [make_annular, get_sphere_sdf, hx]
    rw [abs_of_nonneg (by linarith)]
    ring
  · intro h1 h2
    simp only [make_annular, get_sphere_sdf]
    have habs : |(∑ i, x i ^ 2) - r ^ 2| < t :=
      abs_sub_lt_iff.mpr ⟨by linarith, by linarith⟩
    linarith

/-- Witness for the amended C3 at `r = 1`, `t = 1/2`, `x = (1/2, 1/2, 1/2)`,
whose squared norm is `3/4 = r ^ 2 - t`, so the first zero branch fires. -/
theorem annular_sphere_zero_level_set_witness :
    (0 : ℚ) < 1 ∧ (0 : ℚ) < 1 / 2 ∧ (1 : ℚ) / 2 < 1 ∧
    (((∑ i, (![1 / 2, 1 / 2, 1 / 2] : Fin 3 → ℚ) i ^ 2) = 1 ^ 2 - 1 / 2 →
      make_annular (get_sphere_sdf 1) (1 / 2)
        (![1 / 2, 1 / 2, 1 / 2] : Fin 3 → ℚ) = 0) ∧
    ((∑ i, (![1 / 2, 1 / 2, 1 / 2] : Fin 3 → ℚ) i ^ 2) = 1 ^ 2 + 1 / 2 →
      make_annular (get_sphere_sdf 1) (1 / 2)
        (![1 / 2, 1 / 2, 1 / 2] : Fin 3 → ℚ) = 0) ∧
    (1 ^ 2 - 1 / 2 < (∑ i, (![1 / 2, 1 / 2, 1 / 2] : Fin 3 → ℚ) i ^ 2) →
      (∑ i, (![1 / 2, 1 / 2, 1 / 2] : Fin 3 → ℚ) i ^ 2) < 1 ^ 2 + 1 / 2 →
      make_annular (get_sphere_sdf 1) (1 / 2)
        (![1 / 2, 1 / 2, 1 / 2] : Fin 3 → ℚ) < 0)) :=
  ⟨by norm_num, by norm_num, by norm_num,
    annular_sphere_zero_level_set 1 (1 / 2) ![1 / 2, 1 / 2, 1 / 2]
      (by norm_num) (by norm_num) (by norm_num)⟩

/-- C7: applying the annular combinator twice with thicknesses `t1` then `t2`
differs from a single application with thickness `t1 + t2` whenever `t1 > 0`:
there are an SDF function and an input point where the two disagree (any point
on the zero level set of the wrapped SDF works). -/
theorem make_annular_not_additive (t1 t2 : ℚ) (h : 0 < t1) :
    ∃ (sdf_func : (Fin 2 → ℚ) → ℚ) (x : Fin 2 → ℚ),
      make_annular (make_annular sdf_func t1) t2 x ≠
      make_annular sdf_func (t1 + t2) x := by
  refine ⟨get_sphere_sdf 1, ![1, 0], ?_⟩
  have hz : get_sphere_sdf (k := 2) (1 : ℚ) ![1, 0] = 0 := by
    simp [get_sphere_sdf, Fin.sum_univ_two]
  simp only [make_annular, hz, abs_zero, zero_sub, abs_neg, abs_of_pos h]
  intro hcontra
  linarith

/-- Witness for C7 at `t1 = t2 = 1`. -/
theorem make_annular_not_additive_witness :
    (0 : ℚ) < 1 ∧
    ∃ (sdf_func : (Fin 2 → ℚ) → ℚ) (x : Fin 2 → ℚ),
      make_annular (make_annular sdf_func 1) 1 x ≠
      make_annular sdf_func (1 + 1) x :=
  ⟨by norm_num, make_annular_not_additive 1 1 (by norm_num)⟩

/-- Star SDF value at the origin for the worked parameters. -/
lemma star_sdf_at_origin : get_star_sdf (k := 0) 1 5 5 ![0, 0] = 0 := by
  rw [star_sdf_axis_eval _ (by simp) (by simp)]
  have hs : Real.sqrt (∑ i, (![0, 0] : Fin (0 + 2) → ℝ) i ^ 2) = 0 := by
    rw [show (∑ i, (![0, 0] : Fin (0 + 2) → ℝ) i ^ 2) = 0 by
      norm_num [Fin.sum_univ_two]]
    exact Real.sqrt_zero
  rw [hs]
  norm_num [clamp, max_def, min_def]

/-- Star SDF value at `(10, 0)` for the worked parameters. -/
lemma star_sdf_at_far : get_star_sdf (k := 0) 1 5 5 ![10, 0] = 9 := by
  rw [star_sdf_axis_eval _ (by simp) (by norm_num)]
  have hs : Real.sqrt (∑ i, (![10, 0] : Fin (0 + 2) → ℝ) i ^ 2) = 10 := by
    rw [show (∑ i, (![10, 0] : Fin (0 + 2) → ℝ) i ^ 2) = 10 ^ 2 by
      norm_num [Fin.sum_univ_two]]
    exact Real.sqrt_sq (by norm_num)
  rw [hs]
  norm_num [clamp, max_def, min_def]

/-- Star SDF value on the 3-dimensional input `(0, 0, 1)`. -/
lemma star_sdf_at_3d : get_star_sdf (k := 1) 1 5 5 ![0, 0, 1] = 0 := by
  rw [star_sdf_axis_eval _ (by simp) (by simp)]
  have hs : Real.sqrt (∑ i, (![0, 0, 1] : Fin (1 + 2) → ℝ) i ^ 2) = 1 := by
    rw [show (∑ i, (![0, 0, 1] : Fin (1 + 2) → ℝ) i ^ 2) = 1 by
      norm_num [Fin.sum_univ_succ]]
    exact Real.sqrt_one
  rw [hs]
  norm_num [clamp, max_def, min_def]

/-- Star SDF value at the 2-dimensional point `(1, 0)`. -/
lemma star_sdf_at_unit : get_star_sdf (k := 0) 1 5 5 ![1, 0] = 0 := by
  rw [star_sdf_axis_eval _ (by simp) (by norm_num)]
  have hs : Real.sqrt (∑ i, (![1, 0] : Fin (0 + 2) → ℝ) i ^ 2) = 1 := by
    rw [show (∑ i, (![1, 0] : Fin (0 + 2) → ℝ) i ^ 2) = 1 by
      norm_num [Fin.sum_univ_two]]
    exact Real.sqrt_one
  rw [hs]
  norm_num [clamp, max_def, min_def]

/-- C6 counterexample: for `n = 5`, `m = 5`, `r = 1` the star SDF evaluates
to exactly `0` at the origin, so the origin does NOT yield a strictly
negative value as the claim asserts. -/
theorem star_sdf_origin_not_negative :
    ¬ get_star_sdf (k := 0) 1 5 5 ![0, 0] < 0 := by
  rw [star_sdf_at_origin]
  exact lt_irrefl 0

/-- C6 amended: for the star SDF with `n = 5`, `m = 5`, `r = 1`, the origin
evaluates to exactly `0` (with `m = n` the clamped edge projection lands
exactly back on the offset point, so the formula returns `0 * sign 0 = 0`
rather than an interior-negative value), while the point `(10, 0)` of
magnitude `10 * r` along a principal axis evaluates to exactly
`9 = 10 * r - r`, a positive value of the expected order of magnitude. -/
theorem star_sdf_worked_test_case :
    get_star_sdf (k := 0) 1 5 5 ![0, 0] = 0 ∧
    get_star_sdf (k := 0) 1 5 5 ![10, 0] = 9 ∧
    0 < get_star_sdf (k := 0) 1 5 5 ![10, 0] :=
  ⟨star_sdf_at_origin, star_sdf_at_far, by rw [star_sdf_at_far]; norm_num⟩

/-- C8 counterexample: passing the 3-dimensional point `(0, 0, 1)` to the
2-dimensional star SDF does not fail with a dimensionality-mismatch
condition: the evaluation silently returns the plain value `0` (the tensor
code indexes components `0` and `1` and norms over whatever trailing
dimension it is given). -/
theorem star_sdf_3d_point_evaluates :
    get_star_sdf (k := 1) 1 5 5 ![0, 0, 1] = 0 :=
  star_sdf_at_3d

/-- C8 amended: the star SDF silently accepts points of any dimensionality
at least `2`: the folding angle is computed from components `0` and `1`
alone while the radius is the norm of the whole vector, so the
3-dimensional point `(0, 0, 1)` evaluates without error to the same value
as the 2-dimensional point `(1, 0)` of equal norm and equal leading angle,
namely `0` — no dimensionality check is performed. -/
theorem star_sdf_3d_silent_broadcast :
    get_star_sdf (k := 1) 1 5 5 ![0, 0, 1] =
      get_star_sdf (k := 0) 1 5 5 ![1, 0] ∧
    get_star_sdf (k := 1) 1 5 5 ![0, 0, 1] = 0 := by
  rw [star_sdf_at_3d, star_sdf_at_unit]
  exact ⟨rfl, rfl⟩

/-- C4: applying `get_normal_field` to the sphere SDF at a non-origin point
(positive squared norm) yields a unit-length vector, whose dot product with
the normalized position vector is `1`, and which is a positive multiple of
the position vector — the outward radial direction. -/
theorem normal_field_sphere_outward_unit {k : ℕ} (r : ℝ) (x : Fin k → ℝ)
    (hr : 0 < r) (hx : 0 < ∑ i, x i ^ 2) :
    (∑ i, get_normal_field (get_sphere_sdf r) x i ^ 2 = 1) ∧
    (∑ i, get_normal_field (get_sphere_sdf r) x i *
        (x i / Real.sqrt (∑ j, x j ^ 2)) = 1) ∧
    ∃ c : ℝ, 0 < c ∧
      ∀ i, get_normal_field (get_sphere_sdf r) x i = c * x i := by
  set S := ∑ i, x i ^ 2 with hSdef
  have hs : 0 < Real.sqrt S := Real.sqrt_pos.mpr hx
  have hs2 : Real.sqrt S ^ 2 = S := Real.sq_sqrt hx.le
  have hgrad : ∀ j, torch_grad (get_sphere_sdf r) x j = 2 * x j := by
    intro j
    rw [torch_grad_sphere]
  have hdenom : Real.sqrt (∑ j, torch_grad (get_sphere_sdf r) x j ^ 2) =
      2 * Real.sqrt S := by
    have hsum : (∑ j, torch_grad (get_sphere_sdf r) x j ^ 2) = 4 * S := by
      rw [hSdef, Finset.mul_sum]
      refine Finset.sum_congr rfl fun j _ => ?_
      rw [hgrad j]
      ring
    rw [hsum, show (4 : ℝ) * S = 2 ^ 2 * S by norm_num,
      Real.sqrt_mul (by positivity) S, Real.sqrt_sq (by norm_num : (0 : ℝ) ≤ 2)]
  have hN : ∀ i, get_normal_field (get_sphere_sdf r) x i =
      x i / Real.sqrt S := by
    intro i
    simp only [get_normal_field]
    rw [hgrad i, hdenom, mul_div_mul_left _ _ (by norm_num : (2 : ℝ) ≠ 0)]
  refine ⟨?_, ?_, (Real.sqrt S)⁻¹, inv_pos.mpr hs, fun i => by
    rw [hN i, div_eq_inv_mul]⟩
  · calc ∑ i, get_normal_field (get_sphere_sdf r) x i ^ 2
        = ∑ i, x i ^ 2 / Real.sqrt S ^ 2 :=
          Finset.sum_congr rfl fun i _ => by rw [hN i, div_pow]
      _ = S / S := by rw [← Finset.sum_div, hs2]
      _ = 1 := div_self hx.ne'
  · calc ∑ i, get_normal_field (get_sphere_sdf r) x i *
          (x i / Real.sqrt S)
        = ∑ i, x i ^ 2 / Real.sqrt S ^ 2 := by
          refine Finset.sum_congr rfl fun i _ => ?_
          rw [hN i, div_mul_div_comm, ← pow_two, ← pow_two]
      _ = S / S := by rw [← Finset.sum_div, hs2]
      _ = 1 := div_self hx.ne'

/-- Witness for C4 at `r = 1`, `x = (3, 4)`. -/
theorem normal_field_sphere_outward_unit_witness :
    (0 : ℝ) < 1 ∧ (0 < ∑ i, (![3, 4] : Fin 2 → ℝ) i ^ 2) ∧
    ((∑ i, get_normal_field (get_sphere_sdf 1) (![3, 4] : Fin 2 → ℝ) i ^ 2
        = 1) ∧
    (∑ i, get_normal_field (get_sphere_sdf 1) (![3, 4] : Fin 2 → ℝ) i *
        ((![3, 4] : Fin 2 → ℝ) i /
          Real.sqrt (∑ j, (![3, 4] : Fin 2 → ℝ) j ^ 2)) = 1) ∧
    ∃ c : ℝ, 0 < c ∧
      ∀ i, get_normal_field (get_sphere_sdf 1) (![3, 4] : Fin 2 → ℝ) i =
        c * (![3, 4] : Fin 2 → ℝ) i) := by
  have hx : (0 : ℝ) < ∑ i, (![3, 4] : Fin 2 → ℝ) i ^ 2 := by
    norm_num [Fin.sum_univ_two]
  exact ⟨by norm_num, hx,
    normal_field_sphere_outward_unit 1 ![3, 4] (by norm_num) hx⟩

/-- C5 counterexample: at the origin the sphere SDF has zero autograd
gradient, and the closure returned by `get_normal_field` nevertheless
returns a plain value — the division-by-zero junk value (`NaN` in the
floating-point execution, `0` in this real-valued embedding) — with no
degenerate-normal condition raised or reported. -/
theorem normal_field_degenerate_silent :
    torch_grad (get_sphere_sdf 1) (0 : Fin 2 → ℝ) = 0 ∧
    get_normal_field (get_sphere_sdf 1) (0 : Fin 2 → ℝ) = 0 := by
  have hg : torch_grad (get_sphere_sdf 1) (0 : Fin 2 → ℝ) = 0 := by
    rw [torch_grad_sphere]
    funext i
    simp
  refine ⟨hg, ?_⟩
  funext i
  simp [get_normal_field, hg]

/-- C5 amended: the closure returned by `get_normal_field` performs no
degenerate-gradient check: for every radius, at the origin the gradient of
the sphere SDF is the zero vector, the normalizing denominator
`sqrt(sum(grad ** 2))` is `0`, and the closure still silently returns the
division-by-zero result (`NaN` in floating point, the junk value `0` in this
real-valued embedding) rather than raising or reporting a degenerate-normal
condition. -/
theorem normal_field_no_degenerate_check {k : ℕ} (r : ℝ) :
    torch_grad (get_sphere_sdf r) (0 : Fin k → ℝ) = 0 ∧
    Real.sqrt (∑ j, torch_grad (get_sphere_sdf r) (0 : Fin k → ℝ) j ^ 2)
      = 0 ∧
    get_normal_field (get_sphere_sdf r) (0 : Fin k → ℝ) = 0 := by
  have hg : torch_grad (get_sphere_sdf r) (0 : Fin k → ℝ) = 0 := by
    rw [torch_grad_sphere]
    funext i
    simp
  refine ⟨hg, ?_, ?_⟩
  · rw [hg]
    simp
  · funext i
    simp [get_normal_field, hg]

/-- C9 counterexample: calling the closure returned by `get_normal_field` on
a tensor whose gradient-tracking flag is off flips that flag on in place
(`x = x.requires_grad_(True)` mutates the caller's tensor), so the call does
NOT leave the caller's gradient-tracking state unchanged. -/
theorem normal_field_call_mutates_tracking :
    ((normal_field_call (get_sphere_sdf 1)
        (Tensor.mk (![3, 4] : Fin 2 → ℝ) false)).1).requires_grad ≠
      (Tensor.mk (![3, 4] : Fin 2 → ℝ) false).requires_grad := by
  simp [normal_field_call]

/-- C9 amended: the closure returned by `get_normal_field` leaves the
caller's numeric data unchanged and its output depends only on that data,
but it is not side-effect free: it sets the caller tensor's
gradient-tracking flag to true in place, a caller-observable mutation. -/
theorem normal_field_call_state_effects {k : ℕ} (f : (Fin k → ℝ) → ℝ)
    (t : Tensor k) :
    ((normal_field_call f t).1).data = t.data ∧
    ((normal_field_call f t).1).requires_grad = true ∧
    (normal_field_call f t).2 = get_normal_field f t.data :=
  ⟨rfl, rfl, rfl⟩

end SDF
